import Mathlib

set_option autoImplicit false

/-!
Shallow embedding of the retrieval pipeline of the project-rag-system
repository: the chunker (`pdf_processor.py`), the vector index
(`vector_store.py`) and the retriever (`retriever.py`), together with
theorems checking the natural-language specification against it.

External collaborators (the ChromaDB nearest-neighbour backend, the
embedding model and langchain's text splitter) are not part of the
repository's source; they are passed in as parameters, or modelled from
the spec where the spec pins down their behaviour.  Python floats are
modelled as rationals, Python exceptions as an explicit error type.
-/

/-- Accumulator loop splitting a character list at whitespace runs and
dropping empty fragments, mirroring Python `str.split()` with no
arguments.  `cur` holds the current word in reverse. -/
def wsSplitAux : List Char → List Char → List (List Char)
  | cur, [] => if cur = [] then [] else [cur.reverse]
  | cur, c :: cs =>
    if c.isWhitespace then
      if cur = [] then wsSplitAux [] cs else cur.reverse :: wsSplitAux [] cs
    else wsSplitAux (c :: cur) cs

/-- Whitespace split of a character list (Python `str.split()`). -/
def wsSplit (l : List Char) : List (List Char) := wsSplitAux [] l

/-- Whitespace tokenisation of a string: Python `text.split()`. -/
def pySplit (s : String) : List String := (wsSplit s.data).map fun l => String.mk l

/-- Python `str.lower()`, modelled as lowercasing each character. -/
def pyLower (s : String) : String := String.mk (s.data.map Char.toLower)

/-- Word set of a text: `set(text.lower().split())` in the source. -/
def wordSet (t : String) : Finset String := (pySplit (pyLower t)).toFinset

/-- `Retriever._jaccard_similarity`: intersection over union of the two
lowercased word sets, 0 when either set is empty.  Real-number division is
modelled in ℚ. -/
def jaccard_similarity (text1 text2 : String) : ℚ :=
  if wordSet text1 = ∅ ∨ wordSet text2 = ∅ then 0
  else ((wordSet text1 ∩ wordSet text2).card : ℚ)
      / ((wordSet text1 ∪ wordSet text2).card : ℚ)

/-- A LangChain `Document` as produced by `PDFProcessor._create_chunks`:
the page content plus the metadata keys written there.  `page` is `none`
when the metadata key is absent (the retriever then falls back to the
marker "?"). -/
structure Document where
  page_content : String
  source : String
  page : Option Nat
  chunk_index : Nat
  chunk_length : Nat
deriving DecidableEq, Repr

/-- The `RetrievalResult` dataclass of `retriever.py`, with its field
defaults. -/
structure RetrievalResult where
  query : String
  documents : List Document := []
  scores : List ℚ := []
  context : String := ""
  sources : List String := []
deriving DecidableEq, Repr

/-- `RetrievalResult.found_results`: `len(self.documents) > 0`. -/
def RetrievalResult.found_results (r : RetrievalResult) : Bool :=
  decide (0 < r.documents.length)

/-- The inner loop of `Retriever._deduplicate`: whether the candidate's
text has Jaccard similarity at least the threshold against some already
kept document (the for-loop with early break, i.e. an existential over
the kept list). -/
def keptConflict (thr : ℚ) (kept : List (Document × ℚ)) (x : Document × ℚ) : Bool :=
  kept.any fun e => decide (thr ≤ jaccard_similarity x.1.page_content e.1.page_content)

/-- The outer loop of `Retriever._deduplicate`: `unique` accumulates the
kept (document, score) pairs; a candidate is dropped when it conflicts
with some already kept document. -/
def dedupLoop (thr : ℚ) (unique : List (Document × ℚ)) :
    List (Document × ℚ) → List (Document × ℚ)
  | [] => unique
  | x :: rest =>
    if keptConflict thr unique x then dedupLoop thr unique rest
    else dedupLoop thr (unique ++ [x]) rest

/-- `Retriever._deduplicate`: lists with at most one element are returned
unchanged, otherwise the first result is kept and the loop runs on the
rest. -/
def deduplicate (results : List (Document × ℚ)) (similarity_threshold : ℚ) :
    List (Document × ℚ) :=
  if results.length ≤ 1 then results
  else
    match results with
    | [] => []
    | r0 :: rest => dedupLoop similarity_threshold [r0] rest

/-- Decimal rendering of a natural number (Python `str(n)`), defined
through `Nat.digits` so that its characters are provably decimal
digits. -/
def natStr (n : Nat) : String :=
  if n = 0 then "0" else String.mk (((Nat.digits 10 n).reverse).map Nat.digitChar)

/-- The string form of the `page` metadata value used by the retriever:
`metadata.get("page", "?")` interpolated into an f-string. -/
def pageStr : Option Nat → String
  | some n => natStr n
  | none => "?"

/-- `Retriever._build_context`: numbered sections, each with its source
and page citation, joined by a visible separator. -/
def build_context (results : List (Document × ℚ)) : String :=
  let context_parts := results.enum.map fun p =>
    "[Abschnitt " ++ natStr (p.1 + 1) ++ "] (Quelle: " ++ p.2.1.source ++
      ", Seite " ++ pageStr p.2.1.page ++ ")\n" ++ p.2.1.page_content
  String.intercalate ("\n\n---\n\n") context_parts

/-- Python `str.isdigit` restricted to the ASCII strings occurring here:
nonempty and consisting of decimal digit characters. -/
def pyIsDigit (s : String) : Bool := decide (s.data ≠ []) && s.data.all Char.isDigit

/-- Python `int(s)` on a string of decimal digits. -/
def pyIntNat (s : String) : Nat := s.data.foldl (fun a c => 10 * a + (c.toNat - 48)) 0

/-- The sort key of `Retriever._extract_sources`:
`int(s.split()[-1]) if s.split()[-1].isdigit() else 0`.  The Python code
indexes `[-1]`, which would fail on a label without words; every label
built by the code starts with "Seite", so the `none` branch is
unreachable and modelled as 0. -/
def sourceSortKey (s : String) : Nat :=
  match (pySplit s).getLast? with
  | none => 0
  | some w => if pyIsDigit w then pyIntNat w else 0

/-- The loop of `Retriever._extract_sources`: keeps one label per unseen
`f"{source}_p{page}"` key, in first-seen order. -/
def extractLoop (seen : List String) (acc : List String) :
    List (Document × ℚ) → List String
  | [] => acc
  | (doc, _) :: rest =>
    if doc.source ++ "_p" ++ pageStr doc.page ∈ seen then extractLoop seen acc rest
    else
      extractLoop ((doc.source ++ "_p" ++ pageStr doc.page) :: seen)
        (acc ++ ["Seite " ++ pageStr doc.page]) rest

/-- `Retriever._extract_sources`: collect the first-seen labels, then sort
them ascending by the numeric sort key.  Python `sorted` is a stable
sort, modelled with `List.mergeSort`. -/
def extract_sources (results : List (Document × ℚ)) : List String :=
  (extractLoop [] [] results).mergeSort fun a b =>
    decide (sourceSortKey a ≤ sourceSortKey b)

/-- A Python exception, split into the `RuntimeError` class (which the
`except` clause in `Retriever.retrieve` matches) and every other
exception class. -/
inductive PyExc where
  | runtimeError (msg : String)
  | otherError (cls msg : String)
deriving DecidableEq, Repr

/-- Whether an exception is matched by `except RuntimeError`. -/
def PyExc.isRuntimeError : PyExc → Bool
  | .runtimeError _ => true
  | .otherError _ _ => false

/-- The RuntimeError raised by `VectorStore.similarity_search` on an empty
database — the spec's EmptyIndex error. -/
def emptyIndexError : PyExc :=
  .runtimeError ("Die Vektordatenbank ist leer. Bitte zuerst ein PDF mit --pdf indexieren.")

/-- Modelled from the spec: the ChromaDB collection behind `VectorStore`
is "a persistent vector index keyed by ChunkIdentity"; the backend's own
code is not part of the repository.  An entry is a (document id,
document) pair; the embedding vector plays no role in the claims and is
omitted. -/
abbrev Store := List (String × Document)

/-- `VectorStore._compute_doc_id`: the MD5 hash of
`f"{source}__{page_content}"`.  The hash is modelled as the identity on
its input string, i.e. as an injective fingerprint, which is the
documented intent of content hashing. -/
def compute_doc_id (doc : Document) : String :=
  doc.source ++ "__" ++ doc.page_content

/-- `VectorStore.get_document_count` / the spec's `size()`: the number of
stored entries. -/
def size (st : Store) : Nat := st.length

/-- `VectorStore.is_empty`. -/
def is_empty (st : Store) : Bool := decide (size st = 0)

/-- Modelled from the spec: adding one (id, document) entry to the keyed
backend store.  ChromaDB collections are keyed by id with upsert
semantics: an existing id is overwritten in place, a new id is
appended. -/
def upsertEntry (st : Store) (docId : String) (doc : Document) : Store :=
  if st.any fun e => decide (e.1 = docId) then
    st.map fun e => if e.1 = docId then (docId, doc) else e
  else st ++ [(docId, doc)]

/-- The batch slicing `range(0, len(new_docs), batch_size)` of
`VectorStore.add_documents`.  Guarded with `max` so that slicing is
total; the source always uses a positive batch size (default 32). -/
def batches {α : Type} (batch_size : Nat) : List α → List (List α)
  | [] => []
  | x :: xs =>
    (x :: xs).take (max batch_size 1) ::
      batches batch_size ((x :: xs).drop (max batch_size 1))
termination_by l => l.length
decreasing_by
  simp only [List.length_drop, List.length_cons]
  omega

/-- The selection loop of `VectorStore.add_documents`: against the ids
existing at call time (`_get_existing_ids`, fetched once), keep each
document whose content id is unseen, paired with that id (`new_docs` and
`new_ids` grow in lockstep in the source). -/
def newPairsOf (st : Store) (documents : List Document) : List (String × Document) :=
  documents.filterMap fun doc =>
    if compute_doc_id doc ∈ st.map Prod.fst then none else some (compute_doc_id doc, doc)

/-- `VectorStore.add_documents`: if nothing new remains, return 0 without
touching the backend; otherwise add the new (id, document) pairs to the
backend in batches and return the count of newly added documents. -/
def add_documents (st : Store) (documents : List Document) (batch_size : Nat) :
    Store × Nat :=
  if newPairsOf st documents = [] then (st, 0)
  else
    ((batches batch_size (newPairsOf st documents)).foldl
        (fun s batch => batch.foldl (fun s2 p => upsertEntry s2 p.1 p.2) s) st,
      (newPairsOf st documents).length)

/-- `VectorStore.similarity_search`.  The ChromaDB nearest-neighbour call
is external; its outcome for a given query and k is supplied by
`backend` (either a scored result list or a raised exception). -/
def similarity_search (st : Store)
    (backend : String → Nat → Except PyExc (List (Document × ℚ)))
    (query : String) (k : Nat) (min_similarity : ℚ) :
    Except PyExc (List (Document × ℚ)) :=
  if is_empty st then .error emptyIndexError
  else
    match backend query k with
    | .error e => .error e
    | .ok results => .ok (results.filter fun p => decide (min_similarity ≤ p.2))

/-- `Retriever.retrieve`: the full pipeline, returning either the
RetrievalResult or the propagated Python exception.  The `except` clause
catches exactly the `RuntimeError` class. -/
def retrieve (st : Store)
    (backend : String → Nat → Except PyExc (List (Document × ℚ)))
    (top_k : Nat) (min_similarity : ℚ) (query : String) :
    Except PyExc RetrievalResult :=
  match similarity_search st backend query top_k min_similarity with
  | .error e => if e.isRuntimeError then .ok { query := query } else .error e
  | .ok raw_results =>
    if raw_results = [] then .ok { query := query }
    else
      .ok { query := query
            documents := (deduplicate raw_results (9 / 10)).map Prod.fst
            scores := (deduplicate raw_results (9 / 10)).map Prod.snd
            context := build_context (deduplicate raw_results (9 / 10))
            sources := extract_sources (deduplicate raw_results (9 / 10)) }

/-- One extracted page of a PDF, as handed to `PDFProcessor._create_chunks`
by `_extract_pages`. -/
structure PageData where
  text : String
  page_number : Nat
deriving DecidableEq, Repr

/-- Python `str.strip()`: whitespace dropped from both ends, modelled on
the character list. -/
def pyStrip (s : String) : String :=
  String.mk (((s.data.dropWhile Char.isWhitespace).reverse.dropWhile
    Char.isWhitespace).reverse)

/-- The body of the inner loop of `PDFProcessor._create_chunks`: a split
fragment whose stripped length is below 30 characters is skipped,
otherwise it becomes a document and the global chunk index advances. -/
def chunkStep (source_filename : String) (page_number : Nat)
    (acc : List Document × Nat) (chunk_text : String) : List Document × Nat :=
  if (pyStrip chunk_text).length < 30 then acc
  else
    (acc.1 ++ [{ page_content := chunk_text
                 source := source_filename
                 page := some page_number
                 chunk_index := acc.2
                 chunk_length := chunk_text.length }], acc.2 + 1)

/-- `PDFProcessor._create_chunks`.  The text splitter (langchain's
`RecursiveCharacterTextSplitter`) is an external collaborator and is
passed in as a function; each page's text is split and the fragments run
through `chunkStep` with a chunk index that is global across pages. -/
def create_chunks (split_text : String → List String)
    (pages : List PageData) (source_filename : String) : List Document :=
  (pages.foldl
    (fun acc page_data =>
      (split_text page_data.text).foldl
        (chunkStep source_filename page_data.page_number) acc)
    ([], 0)).1

/-- Stated from the spec's words for claim C3: iterate the results in
order and keep a chunk exactly when its Jaccard similarity stays below
the threshold against every chunk already kept (the first chunk is kept
vacuously, its kept set being empty). -/
def dedupSpec (thr : ℚ) (results : List (Document × ℚ)) : List (Document × ℚ) :=
  results.foldl
    (fun kept x => if keptConflict thr kept x then kept else kept ++ [x])
    []

/-- Stated from the spec's words for claim C7: one document per distinct
(source, page) pair, the first occurrence winning. -/
def pairDedupSpec (seen : List (String × Option Nat)) :
    List (Document × ℚ) → List Document
  | [] => []
  | (doc, _) :: rest =>
    if (doc.source, doc.page) ∈ seen then pairDedupSpec seen rest
    else doc :: pairDedupSpec ((doc.source, doc.page) :: seen) rest

/-- A sample chunk, used to instantiate hypotheses of the theorems below
on concrete inputs. -/
def sampleDoc : Document :=
  { page_content := "Der Hund schläft auf dem Sofa im Wohnzimmer"
    source := "doc.pdf"
    page := some 1
    chunk_index := 0
    chunk_length := 43 }

/-- A second sample chunk with unrelated content. -/
def sampleDoc2 : Document :=
  { page_content := "Quantenmechanik ist ein schweres Thema der Physik"
    source := "doc.pdf"
    page := some 2
    chunk_index := 1
    chunk_length := 49 }

/-- A store holding one entry, used as a concrete nonempty index. -/
def sampleStore : Store := [(compute_doc_id sampleDoc, sampleDoc)]

/-- Helper: a `chunkStep` application preserves the minimum-length
invariant of the accumulated documents. -/
lemma chunkStep_min_length (source_filename : String) (pn : Nat)
    (acc : List Document × Nat) (ct : String)
    (h : ∀ d ∈ acc.1, 30 ≤ (pyStrip d.page_content).length) :
    ∀ d ∈ (chunkStep source_filename pn acc ct).1, 30 ≤ (pyStrip d.page_content).length := by
  intro d hd
  unfold chunkStep at hd
  split at hd
  · exact h d hd
  · rename_i hlt
    rcases List.mem_append.mp hd with h1 | h2
    · exact h d h1
    · rcases List.mem_singleton.mp h2 with rfl
      simpa using Nat.le_of_not_lt hlt

/-- Helper: the inner fragment fold of `create_chunks` preserves the
minimum-length invariant. -/
lemma chunkFold_min_length (source_filename : String) (pn : Nat) :
    ∀ (chunks : List String) (acc : List Document × Nat),
      (∀ d ∈ acc.1, 30 ≤ (pyStrip d.page_content).length) →
      ∀ d ∈ (chunks.foldl (chunkStep source_filename pn) acc).1,
        30 ≤ (pyStrip d.page_content).length := by
  intro chunks
  induction chunks with
  | nil => intro acc h; exact h
  | cons c cs ih =>
    intro acc h
    exact ih (chunkStep source_filename pn acc c) (chunkStep_min_length _ _ _ _ h)

/-- C8: every chunk produced by the chunker has a trimmed text length of
at least 30 characters — fragments whose stripped length is below 30 are
dropped before a document is created, whatever the external splitter
returns. -/
theorem create_chunks_min_length (split_text : String → List String)
    (pages : List PageData) (source_filename : String) :
    ∀ doc ∈ create_chunks split_text pages source_filename,
      30 ≤ (pyStrip doc.page_content).length := by
  unfold create_chunks
  have main : ∀ (ps : List PageData) (acc : List Document × Nat),
      (∀ d ∈ acc.1, 30 ≤ (pyStrip d.page_content).length) →
      ∀ d ∈ (ps.foldl
          (fun acc page_data =>
            (split_text page_data.text).foldl
              (chunkStep source_filename page_data.page_number) acc) acc).1,
        30 ≤ (pyStrip d.page_content).length := by
    intro ps
    induction ps with
    | nil => intro acc h; exact h
    | cons p ps ih =>
      intro acc h
      exact ih _ (chunkFold_min_length source_filename p.page_number _ acc h)
  intro doc hdoc
  exact main pages ([], 0) (by intro d hd; cases hd) doc hdoc

/-- C1: on an index with zero entries, the index query raises the
EmptyIndex RuntimeError, and `Retriever.retrieve` converts it into a
result whose `found_results` is false and whose documents, sources and
context are empty. -/
theorem retriever_empty_index_recovered (st : Store)
    (backend : String → Nat → Except PyExc (List (Document × ℚ)))
    (k : Nat) (ms : ℚ) (query : String) (h : size st = 0) :
    similarity_search st backend query k ms = .error emptyIndexError
    ∧ retrieve st backend k ms query = .ok { query := query }
    ∧ RetrievalResult.found_results { query := query } = false
    ∧ RetrievalResult.documents { query := query } = []
    ∧ RetrievalResult.sources { query := query } = []
    ∧ RetrievalResult.context { query := query } = "" := by
  have he : is_empty st = true := by simp [is_empty, h]
  have hss : similarity_search st backend query k ms = .error emptyIndexError := by
    simp [similarity_search, he]
  refine ⟨hss, ?_, rfl, rfl, rfl, rfl⟩
  simp [retrieve, hss, emptyIndexError, PyExc.isRuntimeError]

/-- C1 witness: the empty-index recovery evaluated on a concrete query. -/
theorem retriever_empty_index_recovered_witness :
    similarity_search [] (fun _ _ => .ok []) ("Frage") 3 (3 / 10) = .error emptyIndexError
    ∧ retrieve [] (fun _ _ => .ok []) 3 (3 / 10) ("Frage") = .ok { query := "Frage" }
    ∧ RetrievalResult.found_results { query := "Frage" } = false
    ∧ RetrievalResult.documents { query := "Frage" } = []
    ∧ RetrievalResult.sources { query := "Frage" } = []
    ∧ RetrievalResult.context { query := "Frage" } = "" :=
  retriever_empty_index_recovered [] (fun _ _ => .ok []) 3 (3 / 10) ("Frage") rfl

/-- C2 counterexample: a backend failure raised as a RuntimeError that is
not the EmptyIndex error is caught by `Retriever.retrieve` and turned
into an empty result instead of propagating, because the except clause
matches the whole RuntimeError class. -/
theorem runtime_error_not_propagated :
    (PyExc.runtimeError ("Interner ChromaDB Fehler") ≠ emptyIndexError)
    ∧ retrieve sampleStore
        (fun _ _ => .error (PyExc.runtimeError ("Interner ChromaDB Fehler")))
        3 (3 / 10) ("Frage")
      = .ok { query := "Frage" } := by
  exact ⟨by decide, rfl⟩

/-- C2 (amended): when the index is nonempty and the backend query raises
an error, `Retriever.retrieve` propagates it exactly when it is not of
the RuntimeError class; every RuntimeError — the EmptyIndex error or any
other — is caught and converted into an empty RetrievalResult. -/
theorem error_propagation_amended (st : Store)
    (backend : String → Nat → Except PyExc (List (Document × ℚ)))
    (k : Nat) (ms : ℚ) (query : String) (e : PyExc)
    (hne : is_empty st = false) (hb : backend query k = .error e) :
    (e.isRuntimeError = false → retrieve st backend k ms query = .error e)
    ∧ (e.isRuntimeError = true → retrieve st backend k ms query = .ok { query := query }) := by
  have hss : similarity_search st backend query k ms = .error e := by
    simp [similarity_search, hne, hb]
  constructor
  · intro hr; simp [retrieve, hss, hr]
  · intro hr; simp [retrieve, hss, hr]

/-- C2 witness: a non-RuntimeError backend failure propagates out of
`retrieve` on a concrete nonempty store. -/
theorem error_propagation_amended_witness :
    retrieve sampleStore (fun _ _ => .error (PyExc.otherError ("ValueError") ("kaputt")))
        3 (3 / 10) ("Frage")
      = .error (PyExc.otherError ("ValueError") ("kaputt")) :=
  (error_propagation_amended sampleStore
    (fun _ _ => .error (PyExc.otherError ("ValueError") ("kaputt")))
    3 (3 / 10) ("Frage") (PyExc.otherError ("ValueError") ("kaputt")) rfl rfl).1 rfl

/-- C6: every (document, score) pair returned by a successful
`similarity_search` has a score at least the minimum-similarity
threshold; pairs below the threshold are discarded by the filter. -/
theorem similarity_search_threshold (st : Store)
    (backend : String → Nat → Except PyExc (List (Document × ℚ)))
    (query : String) (k : Nat) (ms : ℚ) (res : List (Document × ℚ))
    (h : similarity_search st backend query k ms = .ok res) :
    ∀ p ∈ res, ms ≤ p.2 := by
  intro p hp
  unfold similarity_search at h
  split at h
  · exact absurd h (by simp)
  · rcases hb : backend query k with e | results
    · rw [hb] at h
      exact absurd h (by simp)
    · rw [hb] at h
      injection h with h'
      rw [← h'] at hp
      exact of_decide_eq_true (List.mem_filter.mp hp).2

/-- C6 witness: the threshold bound evaluated on a concrete search. -/
theorem similarity_search_threshold_witness : (0 : ℚ) ≤ (1 : ℚ) :=
  similarity_search_threshold sampleStore (fun _ _ => .ok [(sampleDoc, 1)])
    ("Frage") 3 0 [(sampleDoc, 1)] (by rfl) (sampleDoc, 1)
    (List.mem_singleton.mpr rfl)

/-- C9: whatever the outcome, a RetrievalResult returned by
`Retriever.retrieve` carries the input query and pairs each kept document
with exactly one score. -/
theorem retrieve_result_wellformed (st : Store)
    (backend : String → Nat → Except PyExc (List (Document × ℚ)))
    (k : Nat) (ms : ℚ) (query : String) (r : RetrievalResult)
    (h : retrieve st backend k ms query = .ok r) :
    r.query = query ∧ r.documents.length = r.scores.length := by
  unfold retrieve at h
  split at h
  · split at h
    · injection h with h'
      subst h'
      exact ⟨rfl, rfl⟩
    · exact absurd h (by simp)
  · split at h
    · injection h with h'
      subst h'
      exact ⟨rfl, rfl⟩
    · injection h with h'
      subst h'
      refine ⟨rfl, ?_⟩
      simp [List.length_map]

/-- C9 witness: the invariants evaluated on a concrete retrieval. -/
theorem retrieve_result_wellformed_witness :
    RetrievalResult.query { query := "Frage" } = "Frage"
    ∧ (RetrievalResult.documents { query := "Frage" }).length
        = (RetrievalResult.scores { query := "Frage" }).length :=
  retrieve_result_wellformed [] (fun _ _ => .ok []) 3 (3 / 10) ("Frage")
    { query := "Frage" } rfl

/-- Helper: splitting a run of whitespace characters yields no words. -/
lemma wsSplitAux_nil_of_ws : ∀ l : List Char,
    (∀ c ∈ l, c.isWhitespace = true) → wsSplitAux [] l = [] := by
  intro l
  induction l with
  | nil => intro _; simp [wsSplitAux]
  | cons c cs ih =>
    intro h
    have hc : c.isWhitespace = true := h c (List.mem_cons_self c cs)
    simp only [wsSplitAux, hc, if_pos, if_true, reduceIte]
    exact ih fun d hd => h d (List.mem_cons_of_mem c hd)

/-- Helper: the character list underlying `pyLower`. -/
lemma toLower_data (t : String) : (pyLower t).data = t.data.map Char.toLower := rfl

/-- Helper: lowercasing keeps whitespace characters whitespace. -/
lemma toLower_ws (c : Char) (h : c.isWhitespace = true) :
    (Char.toLower c).isWhitespace = true := by
  simp only [Char.isWhitespace] at h
  rcases Bool.or_eq_true_iff.mp h with h | h
  · rcases Bool.or_eq_true_iff.mp h with h | h
    · rcases Bool.or_eq_true_iff.mp h with h | h <;>
        · have := of_decide_eq_true h
          subst this
          decide
    · have := of_decide_eq_true h
      subst this
      decide
  · have := of_decide_eq_true h
    subst this
    decide

/-- Helper: a whitespace-only text has an empty word set. -/
lemma wordSet_empty_of_ws (t : String) (h : ∀ c ∈ t.data, c.isWhitespace = true) :
    wordSet t = ∅ := by
  unfold wordSet pySplit wsSplit
  rw [toLower_data t]
  rw [wsSplitAux_nil_of_ws]
  · rfl
  · intro c hc
    rcases List.mem_map.mp hc with ⟨d, hd, rfl⟩
    exact toLower_ws d (h d hd)

/-- C10: the Jaccard text-similarity helper is symmetric, always lies in
the interval from 0 to 1, equals 1 on two identical texts with at least
one word, and equals 0 whenever either word set is empty — so two
identical whitespace-only chunks never reach the 0.9 duplicate
threshold. -/
theorem jaccard_properties :
    (∀ t1 t2, jaccard_similarity t1 t2 = jaccard_similarity t2 t1)
    ∧ (∀ t1 t2, 0 ≤ jaccard_similarity t1 t2 ∧ jaccard_similarity t1 t2 ≤ 1)
    ∧ (∀ t, wordSet t ≠ ∅ → jaccard_similarity t t = 1)
    ∧ (∀ t1 t2, wordSet t1 = ∅ ∨ wordSet t2 = ∅ → jaccard_similarity t1 t2 = 0)
    ∧ (∀ t, (∀ c ∈ t.data, c.isWhitespace = true) →
        jaccard_similarity t t < 9 / 10) := by
  have hzero : ∀ t1 t2, wordSet t1 = ∅ ∨ wordSet t2 = ∅ → jaccard_similarity t1 t2 = 0 := by
    intro t1 t2 h
    unfold jaccard_similarity
    rw [if_pos h]
  refine ⟨?_, ?_, ?_, hzero, ?_⟩
  · intro t1 t2
    by_cases h1 : wordSet t1 = ∅ <;> by_cases h2 : wordSet t2 = ∅ <;>
      simp [jaccard_similarity, h1, h2, Finset.inter_comm, Finset.union_comm]
  · intro t1 t2
    unfold jaccard_similarity
    split
    · norm_num
    · rename_i h
      rw [not_or] at h
      have hne : (wordSet t1 ∪ wordSet t2).Nonempty := by
        rcases Finset.nonempty_iff_ne_empty.mpr h.1 with ⟨x, hx⟩
        exact ⟨x, Finset.mem_union_left _ hx⟩
      have hpos : (0 : ℚ) < ((wordSet t1 ∪ wordSet t2).card : ℚ) := by
        exact_mod_cast Finset.card_pos.mpr hne
      constructor
      · positivity
      · rw [div_le_one hpos]
        exact_mod_cast Finset.card_le_card
          (le_trans Finset.inter_subset_left Finset.subset_union_left)
  · intro t h
    unfold jaccard_similarity
    rw [if_neg (by simp [h]), Finset.inter_self, Finset.union_self, div_self]
    have : 0 < (wordSet t).card := Finset.card_pos.mpr (Finset.nonempty_iff_ne_empty.mpr h)
    exact_mod_cast Nat.pos_iff_ne_zero.mp this
  · intro t h
    rw [hzero t t (Or.inl (wordSet_empty_of_ws t h))]
    norm_num

/-- C10 witness: the Jaccard properties evaluated on concrete texts. -/
theorem jaccard_properties_witness :
    jaccard_similarity ("Hund Katze") ("Katze Maus")
      = jaccard_similarity ("Katze Maus") ("Hund Katze")
    ∧ (0 ≤ jaccard_similarity ("a") ("b") ∧ jaccard_similarity ("a") ("b") ≤ 1)
    ∧ jaccard_similarity ("Hund") ("Hund") = 1
    ∧ jaccard_similarity ("") ("Hund") = 0
    ∧ jaccard_similarity ("  ") ("  ") < 9 / 10 :=
  ⟨jaccard_properties.1 _ _, jaccard_properties.2.1 _ _,
   jaccard_properties.2.2.1 ("Hund") (by decide),
   jaccard_properties.2.2.2.1 ("") ("Hund") (Or.inl (by decide)),
   jaccard_properties.2.2.2.2 ("  ") (by decide)⟩

/-- Helper: the deduplication loop is the left fold of the keep-or-drop
step over the remaining results. -/
lemma dedupLoop_eq_foldl (thr : ℚ) : ∀ (l : List (Document × ℚ)) (u : List (Document × ℚ)),
    dedupLoop thr u l
      = l.foldl (fun kept x => if keptConflict thr kept x then kept else kept ++ [x]) u := by
  intro l
  induction l with
  | nil => intro u; rfl
  | cons x xs ih =>
    intro u
    rw [dedupLoop, List.foldl_cons]
    by_cases hc : keptConflict thr u x
    · rw [if_pos hc, ih, if_pos hc]
    · rw [if_neg hc, ih, if_neg hc]

/-- Helper: the deduplication loop returns its kept list followed by a
sublist of the remaining results (so survivors keep their relative
order). -/
lemma dedupLoop_decomp (thr : ℚ) : ∀ (l : List (Document × ℚ)) (u : List (Document × ℚ)),
    ∃ sel, dedupLoop thr u l = u ++ sel ∧ sel.Sublist l := by
  intro l
  induction l with
  | nil => intro u; exact ⟨[], by simp [dedupLoop], List.nil_sublist _⟩
  | cons x xs ih =>
    intro u
    rw [dedupLoop]
    by_cases hc : keptConflict thr u x
    · rw [if_pos hc]
      rcases ih u with ⟨sel, h1, h2⟩
      exact ⟨sel, h1, h2.cons x⟩
    · rw [if_neg hc]
      rcases ih (u ++ [x]) with ⟨sel, h1, h2⟩
      refine ⟨x :: sel, ?_, h2.cons₂ x⟩
      rw [h1, List.append_assoc]
      rfl

/-- Helper: `Retriever._deduplicate` computes exactly the spec's greedy
keep-or-drop pass. -/
lemma deduplicate_eq_spec (thr : ℚ) (l : List (Document × ℚ)) :
    deduplicate l thr = dedupSpec thr l := by
  rcases l with _ | ⟨r0, _ | ⟨r1, rest⟩⟩
  · rfl
  · show [r0] = dedupSpec thr [r0]
    simp [dedupSpec, keptConflict]
  · have hspec : dedupSpec thr (r0 :: r1 :: rest)
        = (r1 :: rest).foldl
            (fun kept x => if keptConflict thr kept x then kept else kept ++ [x]) [r0] := by
      unfold dedupSpec
      rw [List.foldl_cons]
      congr 1
    unfold deduplicate
    rw [if_neg (by simp)]
    show dedupLoop thr [r0] (r1 :: rest) = _
    rw [hspec, dedupLoop_eq_foldl]

/-- C3: on a result list sorted descending by score, deduplication keeps
the first result, equals the spec's pass that drops a chunk exactly when
its Jaccard similarity reaches 0.9 against some already kept chunk,
preserves the original relative order (sublist), and hence returns a
list still sorted descending by score. -/
theorem deduplicate_spec (r0 : Document × ℚ) (rest : List (Document × ℚ))
    (hsort : (r0 :: rest).Pairwise (fun a b => b.2 ≤ a.2)) :
    deduplicate (r0 :: rest) (9 / 10) = dedupSpec (9 / 10) (r0 :: rest)
    ∧ (deduplicate (r0 :: rest) (9 / 10)).head? = some r0
    ∧ (deduplicate (r0 :: rest) (9 / 10)).Sublist (r0 :: rest)
    ∧ (deduplicate (r0 :: rest) (9 / 10)).Pairwise (fun a b => b.2 ≤ a.2) := by
  have hd : ∃ sel, deduplicate (r0 :: rest) (9 / 10) = r0 :: sel ∧ sel.Sublist rest := by
    rcases rest with _ | ⟨r1, rs⟩
    · exact ⟨[], by simp [deduplicate], List.nil_sublist _⟩
    · rcases dedupLoop_decomp (9 / 10) (r1 :: rs) [r0] with ⟨sel, h1, h2⟩
      refine ⟨sel, ?_, h2⟩
      unfold deduplicate
      rw [if_neg (by simp)]
      exact h1
  rcases hd with ⟨sel, heq, hsub⟩
  have hsubl : (deduplicate (r0 :: rest) (9 / 10)).Sublist (r0 :: rest) := by
    rw [heq]
    exact hsub.cons₂ r0
  exact ⟨deduplicate_eq_spec _ _, by rw [heq]; rfl, hsubl, hsort.sublist hsubl⟩

/-- C3 witness: the deduplication properties evaluated on a concrete
two-element sorted result list. -/
theorem deduplicate_spec_witness :
    deduplicate [(sampleDoc, (1 : ℚ)), (sampleDoc2, 0)] (9 / 10)
        = dedupSpec (9 / 10) [(sampleDoc, (1 : ℚ)), (sampleDoc2, 0)]
    ∧ (deduplicate [(sampleDoc, (1 : ℚ)), (sampleDoc2, 0)] (9 / 10)).head?
        = some (sampleDoc, (1 : ℚ))
    ∧ (deduplicate [(sampleDoc, (1 : ℚ)), (sampleDoc2, 0)] (9 / 10)).Sublist
        [(sampleDoc, (1 : ℚ)), (sampleDoc2, 0)]
    ∧ (deduplicate [(sampleDoc, (1 : ℚ)), (sampleDoc2, 0)] (9 / 10)).Pairwise
        (fun a b => b.2 ≤ a.2) :=
  deduplicate_spec (sampleDoc, (1 : ℚ)) [(sampleDoc2, 0)] (by decide)

/-- Helper: the batch slices reassemble to the original list. -/
lemma batches_flatten {α : Type} (bs : Nat) : ∀ l : List α, (batches bs l).flatten = l
  | [] => by rw [batches]; rfl
  | x :: xs => by
    rw [batches, List.flatten_cons,
      batches_flatten bs ((x :: xs).drop (max bs 1)), List.take_append_drop]
termination_by l => l.length
decreasing_by
  simp only [List.length_drop, List.length_cons]
  omega

/-- Helper: the batched backend fold of `add_documents` equals the plain
fold over all new pairs. -/
lemma batched_foldl (bs : Nat) (pairs : List (String × Document)) (st : Store) :
    (batches bs pairs).foldl
        (fun s batch => batch.foldl (fun s2 p => upsertEntry s2 p.1 p.2) s) st
      = pairs.foldl (fun s2 p => upsertEntry s2 p.1 p.2) st := by
  conv_rhs => rw [← batches_flatten bs pairs]
  rw [List.foldl_flatten]

/-- Helper: after adding an entry its id is a key of the store. -/
lemma upsertEntry_keys_mem (st : Store) (docId : String) (doc : Document) :
    docId ∈ (upsertEntry st docId doc).map Prod.fst := by
  unfold upsertEntry
  split
  · rename_i h
    rcases List.any_eq_true.mp h with ⟨e, he, hdec⟩
    have heq : e.1 = docId := of_decide_eq_true hdec
    rw [List.map_map]
    refine List.mem_map.mpr ⟨e, he, ?_⟩
    simp [heq]
  · rw [List.map_append]
    exact List.mem_append_right _ (List.mem_singleton.mpr rfl)

/-- Helper: adding an entry keeps every existing key. -/
lemma upsertEntry_keys_mono (st : Store) (docId : String) (doc : Document)
    (k : String) (h : k ∈ st.map Prod.fst) :
    k ∈ (upsertEntry st docId doc).map Prod.fst := by
  unfold upsertEntry
  split
  · rw [List.map_map]
    rcases List.mem_map.mp h with ⟨e, he, rfl⟩
    refine List.mem_map.mpr ⟨e, he, ?_⟩
    by_cases hc : e.1 = docId
    · simp [hc]
    · simp [hc]
  · rw [List.map_append]
    exact List.mem_append_left _ h

/-- Helper: the per-pair fold keeps every existing key. -/
lemma foldl_upsert_keys_mono :
    ∀ (pairs : List (String × Document)) (st : Store) (k : String),
      k ∈ st.map Prod.fst →
      k ∈ (pairs.foldl (fun s2 p => upsertEntry s2 p.1 p.2) st).map Prod.fst := by
  intro pairs
  induction pairs with
  | nil => intro st k h; exact h
  | cons p ps ih =>
    intro st k h
    exact ih _ k (upsertEntry_keys_mono st p.1 p.2 k h)

/-- Helper: the per-pair fold records every added id as a key. -/
lemma foldl_upsert_keys_self :
    ∀ (pairs : List (String × Document)) (st : Store) (p : String × Document),
      p ∈ pairs →
      p.1 ∈ (pairs.foldl (fun s2 p => upsertEntry s2 p.1 p.2) st).map Prod.fst := by
  intro pairs
  induction pairs with
  | nil => intro st p h; cases h
  | cons q ps ih =>
    intro st p h
    rcases List.mem_cons.mp h with rfl | h
    · exact foldl_upsert_keys_mono ps _ p.1 (upsertEntry_keys_mem st p.1 p.2)
    · exact ih _ p h

/-- Helper: a document skipped by the selection loop was already present;
a kept document contributes its (id, document) pair. -/
lemma newPairsOf_mem (st : Store) (docs : List Document) (d : Document)
    (hd : d ∈ docs) (hnot : compute_doc_id d ∉ st.map Prod.fst) :
    (compute_doc_id d, d) ∈ newPairsOf st docs :=
  List.mem_filterMap.mpr ⟨d, hd, by rw [if_neg hnot]⟩

/-- Helper: after `add_documents`, every input document's content id is a
key of the resulting store. -/
lemma add_documents_keys (st : Store) (docs : List Document) (bs : Nat) :
    ∀ d ∈ docs, compute_doc_id d ∈ ((add_documents st docs bs).1.map Prod.fst) := by
  intro d hd
  unfold add_documents
  split
  · rename_i h
    show compute_doc_id d ∈ st.map Prod.fst
    by_contra hnot
    have hmem := newPairsOf_mem st docs d hd hnot
    rw [h] at hmem
    exact absurd hmem (List.not_mem_nil _)
  · show compute_doc_id d ∈ ((batches bs (newPairsOf st docs)).foldl
      (fun s batch => batch.foldl (fun s2 p => upsertEntry s2 p.1 p.2) s) st).map Prod.fst
    rw [batched_foldl]
    by_cases hmem : compute_doc_id d ∈ st.map Prod.fst
    · exact foldl_upsert_keys_mono _ _ _ hmem
    · exact foldl_upsert_keys_self _ _ _ (newPairsOf_mem st docs d hd hmem)

/-- Helper: with nothing new to add, `add_documents` returns the store
untouched and count 0. -/
lemma add_documents_of_nil (st : Store) (docs : List Document) (bs : Nat)
    (h : newPairsOf st docs = []) : add_documents st docs bs = (st, 0) := by
  unfold add_documents
  rw [if_pos h]

/-- C5: calling upsert a second time with the same document list returns
a newly-added count of 0 and leaves the store — in particular `size()` —
unchanged relative to calling it once. -/
theorem add_documents_idempotent (st : Store) (docs : List Document) (bs : Nat) :
    add_documents (add_documents st docs bs).1 docs bs = ((add_documents st docs bs).1, 0)
    ∧ (add_documents (add_documents st docs bs).1 docs bs).2 = 0
    ∧ size (add_documents (add_documents st docs bs).1 docs bs).1
        = size (add_documents st docs bs).1 := by
  have hempty : newPairsOf (add_documents st docs bs).1 docs = [] := by
    unfold newPairsOf
    rw [List.filterMap_eq_nil_iff]
    intro d hd
    rw [if_pos (add_documents_keys st docs bs d hd)]
  have heq := add_documents_of_nil (add_documents st docs bs).1 docs bs hempty
  exact ⟨heq, by rw [heq], by rw [heq]⟩

/-- The invariant maintained by the keyed store: keys are pairwise
distinct and every entry is keyed by its document's content id. -/
def storeInv (st : Store) : Prop :=
  (st.map Prod.fst).Nodup ∧ ∀ e ∈ st, e.1 = compute_doc_id e.2

/-- Helper: adding an entry under its content id preserves the store
invariant. -/
lemma upsertEntry_inv (st : Store) (doc : Document) (h : storeInv st) :
    storeInv (upsertEntry st (compute_doc_id doc) doc) := by
  constructor
  · unfold upsertEntry
    split
    · have hkeys : ((st.map fun e =>
          if e.1 = compute_doc_id doc then (compute_doc_id doc, doc) else e).map Prod.fst)
          = st.map Prod.fst := by
        rw [List.map_map]
        apply List.map_congr_left
        intro e _
        by_cases hc : e.1 = compute_doc_id doc
        · simp [hc]
        · simp [hc]
      rw [hkeys]
      exact h.1
    · rename_i hany
      have hnot : compute_doc_id doc ∉ st.map Prod.fst := by
        intro hmem
        rcases List.mem_map.mp hmem with ⟨e, he, hfst⟩
        exact hany (List.any_eq_true.mpr ⟨e, he, decide_eq_true hfst⟩)
      rw [List.map_append]
      refine List.Nodup.append h.1 (List.nodup_singleton _) ?_
      intro a ha hb
      have hab : a = compute_doc_id doc := by simpa using hb
      exact hnot (hab ▸ ha)
  · intro e he
    unfold upsertEntry at he
    split at he
    · rcases List.mem_map.mp he with ⟨e', he', rfl⟩
      by_cases hc : e'.1 = compute_doc_id doc
      · simp [hc]
      · simp only [hc, if_neg, ite_false]
        exact h.2 e' he'
    · rcases List.mem_append.mp he with h1 | h2
      · exact h.2 e h1
      · rcases List.mem_singleton.mp h2 with rfl
        rfl

/-- Helper: the per-pair fold preserves the store invariant when every
pair is keyed by its document's content id. -/
lemma foldl_upsert_inv :
    ∀ (pairs : List (String × Document)) (st : Store), storeInv st →
      (∀ p ∈ pairs, p.1 = compute_doc_id p.2) →
      storeInv (pairs.foldl (fun s2 p => upsertEntry s2 p.1 p.2) st) := by
  intro pairs
  induction pairs with
  | nil => intro st h _; exact h
  | cons q ps ih =>
    intro st h hp
    have hq : q.1 = compute_doc_id q.2 := hp q (List.mem_cons_self q ps)
    have hst : storeInv (upsertEntry st q.1 q.2) := by
      rw [hq]
      exact upsertEntry_inv st q.2 h
    exact ih _ hst fun p hmem => hp p (List.mem_cons_of_mem q hmem)

/-- Helper: `add_documents` preserves the store invariant. -/
lemma add_documents_inv (st : Store) (docs : List Document) (bs : Nat)
    (h : storeInv st) : storeInv (add_documents st docs bs).1 := by
  unfold add_documents
  split
  · exact h
  · show storeInv ((batches bs (newPairsOf st docs)).foldl
      (fun s batch => batch.foldl (fun s2 p => upsertEntry s2 p.1 p.2) s) st)
    rw [batched_foldl]
    apply foldl_upsert_inv _ _ h
    intro p hp
    rcases List.mem_filterMap.mp hp with ⟨d, _, hf⟩
    split at hf
    · exact absurd hf (by simp)
    · injection hf with hf'
      rw [← hf']

/-- Helper: under the store invariant, at most one entry matches a given
(source, text) pair, since all matching entries share one key. -/
lemma storeInv_count (st : Store) (h : storeInv st) (src txt : String) :
    st.countP (fun e => decide (e.2.source = src ∧ e.2.page_content = txt)) ≤ 1 := by
  have h1 : st.countP (fun e => decide (e.2.source = src ∧ e.2.page_content = txt))
      ≤ st.countP (fun e => decide (e.1 = src ++ "__" ++ txt)) := by
    apply List.countP_mono_left
    intro e he hp
    have hm := of_decide_eq_true hp
    apply decide_eq_true
    rw [h.2 e he, compute_doc_id, hm.1, hm.2]
  have h2 : st.countP (fun e => decide (e.1 = src ++ "__" ++ txt))
      = (st.map Prod.fst).countP (fun x => decide (x = src ++ "__" ++ txt)) := by
    rw [List.countP_map]
    rfl
  have h3 : (st.map Prod.fst).countP (fun x => decide (x = src ++ "__" ++ txt))
      = List.count (src ++ "__" ++ txt) (st.map Prod.fst) := by
    rw [List.count_eq_countP]
    apply List.countP_congr
    intro x _
    constructor
    · intro hx
      exact beq_iff_eq.mpr (of_decide_eq_true hx)
    · intro hx
      exact decide_eq_true (beq_iff_eq.mp hx)
  have h4 : List.count (src ++ "__" ++ txt) (st.map Prod.fst) ≤ 1 :=
    List.nodup_iff_count_le_one.mp h.1 _
  omega

/-- C4: starting from an empty index, after any sequence of upsert calls
— including calls whose document list repeats a (source, text) pair —
the store never holds more than one entry per distinct (source, text)
pair. -/
theorem upsert_unique_per_source_text (calls : List (List Document × Nat))
    (src txt : String) :
    ((calls.foldl (fun s c => (add_documents s c.1 c.2).1) ([] : Store)).countP
        (fun e => decide (e.2.source = src ∧ e.2.page_content = txt))) ≤ 1 := by
  have hinv : ∀ (cs : List (List Document × Nat)) (st : Store), storeInv st →
      storeInv (cs.foldl (fun s c => (add_documents s c.1 c.2).1) st) := by
    intro cs
    induction cs with
    | nil => intro st h; exact h
    | cons c cs ih =>
      intro st h
      exact ih _ (add_documents_inv st c.1 c.2 h)
  exact storeInv_count _
    (hinv calls [] ⟨List.nodup_nil, by intro e he; cases he⟩) src txt

/-- Helper: decimal digit characters, their value, and their shape. -/
lemma digitChar_facts (d : Nat) (h : d < 10) :
    (Nat.digitChar d).isDigit = true
    ∧ (Nat.digitChar d).toNat - 48 = d
    ∧ Nat.digitChar d ≠ '_'
    ∧ (Nat.digitChar d).isWhitespace = false := by
  interval_cases d <;> exact ⟨by decide, by decide, by decide, by decide⟩

/-- Helper: the characters of `natStr n` when `n` is nonzero. -/
lemma natStr_data (n : Nat) (h : n ≠ 0) :
    (natStr n).data = ((Nat.digits 10 n).reverse).map Nat.digitChar := by
  rw [natStr, if_neg h]

/-- Helper: every character of `natStr n` is a decimal digit. -/
lemma natStr_chars (n : Nat) :
    ∀ c ∈ (natStr n).data,
      c.isDigit = true ∧ c ≠ '_' ∧ c.isWhitespace = false := by
  intro c hc
  by_cases h : n = 0
  · subst h
    rcases List.mem_singleton.mp hc with rfl
    exact ⟨by decide, by decide, by decide⟩
  · rw [natStr_data n h] at hc
    rcases List.mem_map.mp hc with ⟨d, hd, rfl⟩
    have hlt : d < 10 :=
      Nat.digits_lt_base (by norm_num) (List.mem_reverse.mp hd)
    rcases digitChar_facts d hlt with ⟨h1, _, h3, h4⟩
    exact ⟨h1, h3, h4⟩

/-- Helper: `natStr n` is nonempty. -/
lemma natStr_ne_empty (n : Nat) : (natStr n).data ≠ [] := by
  by_cases h : n = 0
  · subst h
    decide
  · rw [natStr_data n h]
    simp [Nat.digits_ne_nil_iff_ne_zero.mpr h]

/-- Helper: the digit fold ignores the character wrapping. -/
lemma foldl_digitChar (l : List Nat) (hl : ∀ d ∈ l, d < 10) : ∀ a : Nat,
    l.foldl (fun a d => 10 * a + ((Nat.digitChar d).toNat - 48)) a
      = l.foldl (fun a d => 10 * a + d) a := by
  induction l with
  | nil => intro a; rfl
  | cons d ds ih =>
    intro a
    rw [List.foldl_cons, List.foldl_cons,
      (digitChar_facts d (hl d (List.mem_cons_self d ds))).2.1]
    exact ih (fun x hx => hl x (List.mem_cons_of_mem d hx)) _

/-- Helper: folding most-significant-first digits recovers the number. -/
lemma foldr_ofDigits (l : List Nat) :
    l.foldr (fun d a => 10 * a + d) 0 = Nat.ofDigits 10 l := by
  induction l with
  | nil => rfl
  | cons d ds ih =>
    rw [List.foldr_cons, ih, Nat.ofDigits_cons]
    ring

/-- Helper: parsing the decimal rendering gives the number back. -/
lemma pyIntNat_natStr (n : Nat) : pyIntNat (natStr n) = n := by
  by_cases h : n = 0
  · subst h
    decide
  · unfold pyIntNat
    rw [natStr_data n h, List.foldl_map, foldl_digitChar _
      (fun d hd => Nat.digits_lt_base (by norm_num) (List.mem_reverse.mp hd)),
      List.foldl_reverse]
    have : (Nat.digits 10 n).foldr (fun x y => 10 * y + x) 0
        = (Nat.digits 10 n).foldr (fun d a => 10 * a + d) 0 := rfl
    rw [this, foldr_ofDigits, Nat.ofDigits_digits]

/-- Helper: the decimal rendering is injective. -/
lemma natStr_inj (m n : Nat) (h : natStr m = natStr n) : m = n := by
  rw [← pyIntNat_natStr m, h, pyIntNat_natStr]

/-- Helper: a decimal rendering is never the missing-page marker. -/
lemma natStr_ne_q (n : Nat) : natStr n ≠ "?" := by
  intro h
  have hq : ('?' : Char) ∈ (natStr n).data := by
    rw [h]
    decide
  have := (natStr_chars n '?' hq).1
  exact absurd this (by decide)

/-- Helper: page markers are nonempty and contain no underscore and no
whitespace. -/
lemma pageStr_clean (p : Option Nat) :
    (pageStr p).data ≠ []
    ∧ ∀ c ∈ (pageStr p).data, c ≠ '_' ∧ c.isWhitespace = false := by
  cases p with
  | some n =>
    exact ⟨natStr_ne_empty n, fun c hc => (natStr_chars n c hc).2⟩
  | none => exact ⟨by decide, by decide⟩

/-- Helper: the page marker determines the page. -/
lemma pageStr_inj (p1 p2 : Option Nat) (h : pageStr p1 = pageStr p2) : p1 = p2 := by
  cases p1 with
  | some m =>
    cases p2 with
    | some n => rw [natStr_inj m n h]
    | none => exact absurd h (natStr_ne_q m)
  | none =>
    cases p2 with
    | some n => exact absurd h.symm (natStr_ne_q n)
    | none => rfl

/-- Helper: `takeWhile` over a word free of underscores, followed by the
marker "p_" (reversed key separator), returns the word plus that p. -/
lemma takeWhile_word (w r : List Char) (h : ∀ c ∈ w, c ≠ '_') :
    (w ++ 'p' :: '_' :: r).takeWhile (fun c => decide (c ≠ '_')) = w ++ ['p'] := by
  induction w with
  | nil => simp [List.takeWhile]
  | cons c cs ih =>
    have hc : c ≠ '_' := h c (List.mem_cons_self c cs)
    rw [List.cons_append, List.takeWhile_cons, if_pos (decide_eq_true hc),
      ih fun d hd => h d (List.mem_cons_of_mem c hd)]
    rfl

/-- Helper: the dedup key `f"{source}_p{page}"` determines the (source,
page) pair, because page markers contain no underscore. -/
lemma key_inj (s1 s2 : String) (p1 p2 : Option Nat)
    (h : s1 ++ "_p" ++ pageStr p1 = s2 ++ "_p" ++ pageStr p2) :
    s1 = s2 ∧ p1 = p2 := by
  have hdata : s1.data ++ ('_' :: 'p' :: (pageStr p1).data)
      = s2.data ++ ('_' :: 'p' :: (pageStr p2).data) := by
    have hd := congrArg String.data h
    simpa [String.data_append] using hd
  have hrev := congrArg List.reverse hdata
  simp only [List.reverse_append, List.reverse_cons, List.append_assoc,
    List.nil_append, List.cons_append] at hrev
  have hq1 : ∀ c ∈ (pageStr p1).data.reverse, c ≠ '_' := fun c hc =>
    ((pageStr_clean p1).2 c (List.mem_reverse.mp hc)).1
  have hq2 : ∀ c ∈ (pageStr p2).data.reverse, c ≠ '_' := fun c hc =>
    ((pageStr_clean p2).2 c (List.mem_reverse.mp hc)).1
  have ht := congrArg (List.takeWhile fun c => decide (c ≠ '_')) hrev
  rw [takeWhile_word _ _ hq1, takeWhile_word _ _ hq2] at ht
  have hqd : (pageStr p1).data = (pageStr p2).data :=
    List.reverse_inj.mp (List.append_cancel_right ht)
  have hpage : p1 = p2 := pageStr_inj p1 p2 (String.ext hqd)
  subst hpage
  have hs : s1.data = s2.data := List.append_cancel_right hdata
  exact ⟨String.ext hs, rfl⟩

/-- Helper: the extraction loop produces exactly one label per distinct
(source, page) pair, first occurrence first, provided the seen-key set
corresponds to the seen-pair set. -/
lemma extractLoop_eq : ∀ (results : List (Document × ℚ)) (sk : List String)
    (sp : List (String × Option Nat)) (acc : List String),
    (∀ s p, (s ++ "_p" ++ pageStr p) ∈ sk ↔ (s, p) ∈ sp) →
    extractLoop sk acc results
      = acc ++ (pairDedupSpec sp results).map (fun d => "Seite " ++ pageStr d.page) := by
  intro results
  induction results with
  | nil =>
    intro sk sp acc h
    simp [extractLoop, pairDedupSpec]
  | cons x rest ih =>
    intro sk sp acc h
    rcases x with ⟨doc, sc⟩
    rw [extractLoop, pairDedupSpec]
    by_cases hk : doc.source ++ "_p" ++ pageStr doc.page ∈ sk
    · rw [if_pos hk, if_pos ((h _ _).mp hk)]
      exact ih sk sp acc h
    · have hp : (doc.source, doc.page) ∉ sp := fun hmem => hk ((h _ _).mpr hmem)
      have hinv : ∀ s p,
          (s ++ "_p" ++ pageStr p) ∈ ((doc.source ++ "_p" ++ pageStr doc.page) :: sk)
          ↔ (s, p) ∈ ((doc.source, doc.page) :: sp) := by
        intro s p
        rw [List.mem_cons, List.mem_cons]
        refine or_congr ?_ (h s p)
        constructor
        · intro he
          obtain ⟨h1, h2⟩ := key_inj s doc.source p doc.page he
          rw [h1, h2]
        · intro he
          rw [Prod.mk.injEq] at he
          rw [he.1, he.2]
      rw [if_neg hk, if_neg hp, ih _ _ _ hinv, List.map_cons, List.append_assoc]
      rfl

/-- Helper: the whitespace splitter consumes a whole whitespace-free
block into the current word. -/
lemma wsSplitAux_word : ∀ (w cur cs : List Char),
    (∀ c ∈ w, c.isWhitespace = false) →
    wsSplitAux cur (w ++ cs) = wsSplitAux (w.reverse ++ cur) cs := by
  intro w
  induction w with
  | nil => intro cur cs _; rfl
  | cons c w' ih =>
    intro cur cs h
    have hc : ¬(c.isWhitespace = true) := by
      rw [h c (List.mem_cons_self c w')]
      exact Bool.false_ne_true
    rw [List.cons_append, wsSplitAux, if_neg hc,
      ih _ _ fun d hd => h d (List.mem_cons_of_mem c hd),
      List.reverse_cons, List.append_assoc]
    rfl

/-- Helper: splitting a label "Seite " followed by a nonempty
whitespace-free marker yields exactly those two words. -/
lemma pySplit_label (p : String) (hne : p.data ≠ [])
    (hws : ∀ c ∈ p.data, c.isWhitespace = false) :
    pySplit ("Seite " ++ p) = ["Seite", p] := by
  unfold pySplit wsSplit
  have hdata : ("Seite " ++ p).data = ['S', 'e', 'i', 't', 'e'] ++ (' ' :: p.data) := by
    rw [String.data_append]
    rfl
  rw [hdata, wsSplitAux_word ['S', 'e', 'i', 't', 'e'] [] (' ' :: p.data) (by decide)]
  show ((wsSplitAux ['e', 't', 'i', 'e', 'S'] (' ' :: p.data)).map fun l => String.mk l) = _
  rw [wsSplitAux, if_pos (by decide : (' ' : Char).isWhitespace = true),
    if_neg (by decide : ¬(['e', 't', 'i', 'e', 'S'] : List Char) = [])]
  have h2 : wsSplitAux [] p.data = [p.data] := by
    conv_lhs => rw [← List.append_nil p.data]
    rw [wsSplitAux_word p.data [] [] hws, List.append_nil, wsSplitAux,
      if_neg (by simpa using hne), List.reverse_reverse]
  rw [h2]
  rfl

/-- Helper: on a numeric page label the sort key is the page number. -/
lemma sourceSortKey_label (n : Nat) : sourceSortKey ("Seite " ++ natStr n) = n := by
  unfold sourceSortKey
  rw [pySplit_label (natStr n) (natStr_ne_empty n)
    (fun c hc => (natStr_chars n c hc).2.2)]
  show (if pyIsDigit (natStr n) then pyIntNat (natStr n) else 0) = n
  have hd : pyIsDigit (natStr n) = true := by
    unfold pyIsDigit
    rw [Bool.and_eq_true]
    refine ⟨decide_eq_true (natStr_ne_empty n), ?_⟩
    rw [List.all_eq_true]
    intro c hc
    exact (natStr_chars n c hc).1
  rw [if_pos hd]
  exact pyIntNat_natStr n

/-- Helper: on the missing-page label the sort key is 0. -/
lemma sourceSortKey_q : sourceSortKey ("Seite " ++ pageStr none) = 0 := by decide

/-- C7: the extracted sources are a permutation of one "Seite N" label
per distinct (source, page) pair (first occurrence wins), arranged
ascending by the sort key, which is the numeric page value and 0 for the
non-numeric marker. -/
theorem extract_sources_spec (results : List (Document × ℚ)) :
    (extract_sources results).Perm
        ((pairDedupSpec [] results).map fun d => "Seite " ++ pageStr d.page)
    ∧ (extract_sources results).Pairwise
        (fun a b => sourceSortKey a ≤ sourceSortKey b)
    ∧ (∀ n : Nat, sourceSortKey ("Seite " ++ natStr n) = n)
    ∧ sourceSortKey ("Seite " ++ pageStr none) = 0 := by
  have hlabels : extractLoop [] [] results
      = (pairDedupSpec [] results).map (fun d => "Seite " ++ pageStr d.page) := by
    have h := extractLoop_eq results [] [] [] (by intro s p; simp)
    simpa using h
  refine ⟨?_, ?_, sourceSortKey_label, sourceSortKey_q⟩
  · unfold extract_sources
    rw [← hlabels]
    exact List.mergeSort_perm _ _
  · unfold extract_sources
    have htrans : ∀ a b c : String,
        decide (sourceSortKey a ≤ sourceSortKey b) = true →
        decide (sourceSortKey b ≤ sourceSortKey c) = true →
        decide (sourceSortKey a ≤ sourceSortKey c) = true := by
      intro a b c h1 h2
      exact decide_eq_true (le_trans (of_decide_eq_true h1) (of_decide_eq_true h2))
    have htotal : ∀ a b : String,
        (decide (sourceSortKey a ≤ sourceSortKey b)
          || decide (sourceSortKey b ≤ sourceSortKey a)) = true := by
      intro a b
      rcases Nat.le_total (sourceSortKey a) (sourceSortKey b) with h | h
      · rw [decide_eq_true h]
        exact Bool.true_or _
      · rw [decide_eq_true h]
        exact Bool.or_true _
    have hp := List.sorted_mergeSort htrans htotal (extractLoop [] [] results)
    exact hp.imp fun h => of_decide_eq_true h

/-- C8 witness: the minimum-length bound evaluated on a concrete splitter
and page, whose single fragment becomes `sampleDoc`. -/
theorem create_chunks_min_length_witness :
    30 ≤ (pyStrip sampleDoc.page_content).length :=
  create_chunks_min_length (fun t => [t])
    [{ text := "Der Hund schläft auf dem Sofa im Wohnzimmer", page_number := 1 }]
    ("doc.pdf") sampleDoc (by decide)
